import Mathlib

/-!
# subs-check: `config.RemoveSubUrl`

A shallow embedding of `RemoveSubUrl` and `RemoveSubUrlFromConfig` from
`src/config/config.go`, together with the parts of the Go runtime they rest on:

* Go strings are byte sequences (`GoString`, a list of byte values);
* `for i, ch := range line` decodes UTF-8 (`DecodeRuneInString`, `rangeString`);
* `strings.TrimSpace` (`TrimSpace`), with `unicode.IsSpace` (`IsSpace`);
* `bufio.Scanner` with the default `ScanLines` split function and the default
  token limit (`scanLines`);
* `strings.Join(newLines, "\n")` (`joinLines`);
* the file system touched by `os.Open` and `os.WriteFile` (`World`).
-/

namespace SubsCheck

/-! ## Go strings -/

/-- A Go string: an immutable sequence of bytes, each a value below 256. -/
abbrev GoString := List Nat

/-- The bytes of a Go string literal (Go source text is UTF-8). -/
def lit (s : String) : GoString := s.toUTF8.data.toList.map UInt8.toNat

/-- The slice expression `s[lo:]`; `none` stands for the run-time panic
"slice bounds out of range". -/
def sliceFrom (s : GoString) (lo : Nat) : Option GoString :=
  if lo ≤ s.length then some (s.drop lo) else none

/-- The slice expression `s[lo:hi]` for indices already known to be in range. -/
def sliceBetween (s : GoString) (lo hi : Nat) : GoString := (s.take hi).drop lo

/-! ## UTF-8 decoding (`unicode/utf8`) -/

/-- The constant `utf8.RuneError`, U+FFFD. -/
def RuneError : Nat := 0xFFFD

/-- The constant `utf8.RuneSelf`: bytes below it are single-byte runes. -/
def RuneSelf : Nat := 0x80

/-- The constant `utf8.UTFMax`. -/
def UTFMax : Nat := 4

/-- The table `utf8.first` joined with `utf8.acceptRanges`: for a lead byte of a
multi-byte sequence, the length of the sequence and the accepted range of the
second byte; `none` for ASCII bytes and for bytes that cannot start a sequence. -/
def leadInfo (b : Nat) : Option (Nat × Nat × Nat) :=
  if 0xC2 ≤ b ∧ b ≤ 0xDF then some (2, 0x80, 0xBF)
  else if b = 0xE0 then some (3, 0xA0, 0xBF)
  else if 0xE1 ≤ b ∧ b ≤ 0xEC then some (3, 0x80, 0xBF)
  else if b = 0xED then some (3, 0x80, 0x9F)
  else if 0xEE ≤ b ∧ b ≤ 0xEF then some (3, 0x80, 0xBF)
  else if b = 0xF0 then some (4, 0x90, 0xBF)
  else if 0xF1 ≤ b ∧ b ≤ 0xF3 then some (4, 0x80, 0xBF)
  else if b = 0xF4 then some (4, 0x80, 0x8F)
  else none

/-- The function `utf8.DecodeRuneInString`: the first rune of `s` and its width
in bytes; `(RuneError, 1)` on an invalid encoding, `(RuneError, 0)` on the
empty string. Masking with `0x1F`, `0x0F`, `0x07`, `0x3F` is `% 32`, `% 16`,
`% 8`, `% 64`; shifting left by 6 is `* 64`. -/
def DecodeRuneInString (s : GoString) : Nat × Nat :=
  match s with
  | [] => (RuneError, 0)
  | s0 :: t =>
    match leadInfo s0 with
    | none => if s0 < RuneSelf then (s0, 1) else (RuneError, 1)
    | some (sz, lo, hi) =>
      if s.length < sz then (RuneError, 1) else
      match t with
      | [] => (RuneError, 1)
      | s1 :: t1 =>
        if s1 < lo ∨ hi < s1 then (RuneError, 1)
        else if sz ≤ 2 then (s0 % 32 * 64 + s1 % 64, 2)
        else
          match t1 with
          | [] => (RuneError, 1)
          | s2 :: t2 =>
            if s2 < 0x80 ∨ 0xBF < s2 then (RuneError, 1)
            else if sz ≤ 3 then (s0 % 16 * 4096 + s1 % 64 * 64 + s2 % 64, 3)
            else
              match t2 with
              | [] => (RuneError, 1)
              | s3 :: _ =>
                if s3 < 0x80 ∨ 0xBF < s3 then (RuneError, 1)
                else (s0 % 8 * 262144 + s1 % 64 * 4096 + s2 % 64 * 64 + s3 % 64, 4)

/-- The iteration `for i, ch := range s` from byte offset `i`, with `skip`
bytes of the rune last decoded still to be passed over: the `(i, ch)` pairs in
iteration order. -/
def rangeFrom (i skip : Nat) : GoString → List (Nat × Nat)
  | [] => []
  | b :: s =>
    if 0 < skip then rangeFrom (i + 1) (skip - 1) s
    else (i, (DecodeRuneInString (b :: s)).1) ::
      rangeFrom (i + 1) ((DecodeRuneInString (b :: s)).2 - 1) s

/-- The pairs `(i, ch)` that `for i, ch := range s` visits, in order. -/
def rangeString (s : GoString) : List (Nat × Nat) := rangeFrom 0 0 s

/-- The function `utf8.RuneStart`: the byte is not a continuation byte. -/
def RuneStart (b : Nat) : Bool := decide (b / 64 % 4 ≠ 2)

/-- The backwards search of `utf8.DecodeLastRuneInString`
(`for start--; start >= lim; start--`) for the start of the last rune; the
search visits at most `UTFMax - 1` positions. -/
def lastRuneStart (s : GoString) (lim : Int) : Nat → Int → Int
  | 0, start => start
  | n + 1, start =>
    if lim ≤ start then
      if RuneStart (s.getD start.toNat 0) then start
      else lastRuneStart s lim n (start - 1)
    else start

/-- The function `utf8.DecodeLastRuneInString`: the last rune of `s` and its
width. -/
def DecodeLastRuneInString (s : GoString) : Nat × Nat :=
  if s.length = 0 then (RuneError, 0)
  else if s.getD (s.length - 1) 0 < RuneSelf then (s.getD (s.length - 1) 0, 1)
  else
    let lim : Int := if (s.length : Int) - UTFMax < 0 then 0 else (s.length : Int) - UTFMax
    let start0 := lastRuneStart s lim UTFMax ((s.length : Int) - 2)
    let start : Nat := if start0 < 0 then 0 else start0.toNat
    let d := DecodeRuneInString (sliceBetween s start s.length)
    if start + d.2 ≠ s.length then (RuneError, 1) else d

/-! ## White space (`unicode.IsSpace`, `strings.TrimSpace`) -/

/-- The function `unicode.IsSpace`: the Latin-1 spaces and the code points of
the `White_Space` range table above Latin-1. -/
def IsSpace (r : Nat) : Bool :=
  if r ≤ 0xFF then
    r = 9 ∨ r = 10 ∨ r = 11 ∨ r = 12 ∨ r = 13 ∨ r = 32 ∨ r = 0x85 ∨ r = 0xA0
  else
    r = 0x1680 ∨ (0x2000 ≤ r ∧ r ≤ 0x200A) ∨ r = 0x2028 ∨ r = 0x2029 ∨
      r = 0x202F ∨ r = 0x205F ∨ r = 0x3000

/-- The table `strings.asciiSpace`. -/
def asciiSpace (c : Nat) : Bool :=
  c = 9 ∨ c = 10 ∨ c = 11 ∨ c = 12 ∨ c = 13 ∨ c = 32

/-- The function `strings.indexFunc(s, unicode.IsSpace, false)` over the pairs
of a range loop: the index of the first rune that is not a space. -/
def indexNotSpace : List (Nat × Nat) → Option Nat
  | [] => none
  | (i, r) :: rest => if IsSpace r then indexNotSpace rest else some i

/-- The function `strings.TrimLeftFunc(s, unicode.IsSpace)`. -/
def TrimLeftSpace (s : GoString) : GoString :=
  match indexNotSpace (rangeString s) with
  | none => []
  | some i => s.drop i

/-- The function `strings.lastIndexFunc(s, unicode.IsSpace, false)`, started at
`i` (`for i := len(s); i > 0;`): the index of the last rune that is not a space.
Every step lowers `i`, so `i` steps suffice. -/
def lastIndexNotSpace (s : GoString) : Nat → Nat → Option Nat
  | 0, _ => none
  | n + 1, i =>
    if 0 < i then
      let d := DecodeLastRuneInString (sliceBetween s 0 i)
      if IsSpace d.1 then lastIndexNotSpace s n (i - d.2) else some (i - d.2)
    else none

/-- The function `strings.TrimRightFunc(s, unicode.IsSpace)`. -/
def TrimRightSpace (s : GoString) : GoString :=
  match lastIndexNotSpace s s.length s.length with
  | none => []
  | some i =>
    if RuneSelf ≤ s.getD i 0 then
      sliceBetween s 0 (i + (DecodeRuneInString (s.drop i)).2)
    else sliceBetween s 0 (i + 1)

/-- The second loop of `strings.TrimSpace`, on the reversed string: strip
ASCII spaces from the end, handing over to `TrimRightFunc` at the first
non-ASCII byte. -/
def trimSpaceEnd : GoString → GoString
  | [] => []
  | c :: r =>
    if RuneSelf ≤ c then TrimRightSpace (c :: r).reverse
    else if asciiSpace c then trimSpaceEnd r
    else (c :: r).reverse

/-- The function `strings.TrimSpace`: strip ASCII spaces from the front, handing
over to `TrimFunc(s[start:], unicode.IsSpace)` at the first non-ASCII byte, then
strip from the end. -/
def TrimSpace : GoString → GoString
  | [] => []
  | c :: s =>
    if RuneSelf ≤ c then TrimRightSpace (TrimLeftSpace (c :: s))
    else if asciiSpace c then TrimSpace s
    else trimSpaceEnd (c :: s).reverse

/-! ## Reading and writing lines (`bufio.Scanner`, `strings.Join`) -/

/-- The constant `bufio.MaxScanTokenSize`: a scanner with the default buffer
gives up with `bufio.ErrTooLong` on a line that does not fit in it. -/
def MaxScanTokenSize : Nat := 64 * 1024

/-- The helper `dropCR` of `bufio.ScanLines`: drop one terminal `\r`. -/
def dropCR (data : GoString) : GoString :=
  if data.getLast? = some 13 then data.dropLast else data

/-- What a `bufio.Scanner` delivers: the tokens of the successful `Scan` calls
and whether `scanner.Err()` is non-nil afterwards. -/
structure Scanned where
  tokens : List GoString
  failed : Bool
deriving DecidableEq, Repr

/-- A scanner with the `ScanLines` split function over input `data`, where `cur`
holds the bytes of the current line read so far. A line ends at `\n`; a final
unterminated line is delivered when it is not empty; a line of
`MaxScanTokenSize` bytes or more (its `\n` not counted) fills the buffer and
ends the scan with `ErrTooLong`. -/
def scanLinesFrom (cur : GoString) : GoString → Scanned
  | [] =>
    if cur = [] then ⟨[], false⟩
    else if MaxScanTokenSize ≤ cur.length then ⟨[], true⟩
    else ⟨[dropCR cur], false⟩
  | b :: rest =>
    if b = 10 then
      if MaxScanTokenSize ≤ cur.length then ⟨[], true⟩
      else ⟨dropCR cur :: (scanLinesFrom [] rest).tokens, (scanLinesFrom [] rest).failed⟩
    else scanLinesFrom (cur ++ [b]) rest

/-- The lines a scanner delivers for the whole content `data`. -/
def scanLines (data : GoString) : Scanned := scanLinesFrom [] data

/-- The call `strings.Join(newLines, "\n")`. -/
def joinLines : List GoString → GoString
  | [] => []
  | [l] => l
  | l :: m :: rest => l ++ 10 :: joinLines (m :: rest)

/-- The content with one final `\n` removed, when it has one. -/
def chompNL (data : GoString) : GoString :=
  if data.getLast? = some 10 then data.dropLast else data

/-! ## The line loop of `RemoveSubUrl` -/

/-- The variables of the `for scanner.Scan()` loop, and the number of
`slog.Info` records ("从配置文件中删除失败的订阅链接") emitted so far. -/
structure LoopState where
  inSubUrls : Bool
  newLines : List GoString
  infos : Nat
deriving DecidableEq, Repr

/-- The state before the first line: `inSubUrls := false`, `newLines` nil. -/
def LoopState.init : LoopState := ⟨false, [], 0⟩

/-- The inner loop `for i, ch := range line { if ch == '-' { ... } }` over the
pairs still to visit: the number of `slog.Info` calls made. At a `'-'` whose
`urlPart` equals `subUrl` the `continue` goes on with the next rune of the same
line; at any other `'-'` the `break` ends the loop. `none` is a slice panic. -/
def scanRunes (line subUrl : GoString) : List (Nat × Nat) → Option Nat
  | [] => some 0
  | (i, ch) :: rest =>
    if ch = 45 then
      match sliceFrom line (i + 1) with
      | none => none
      | some tail =>
        let urlPart := TrimSpace tail
        if urlPart = subUrl then (scanRunes line subUrl rest).map (· + 1)
        else some 0
    else scanRunes line subUrl rest

/-- The body of the `for scanner.Scan()` loop for one `line`. -/
def loopBody (subUrl : GoString) (st : LoopState) (line : GoString) : Option LoopState :=
  let trimmedLine := TrimSpace line
  if st.inSubUrls = false ∧
      (trimmedLine = lit "sub-urls:" ∨ trimmedLine = lit "sub-urls: []") then
    some { st with inSubUrls := true, newLines := st.newLines ++ [line] }
  else
    let after : Option LoopState :=
      if st.inSubUrls = true then
        if 0 < line.length ∧ line.head? = some 32 then
          (scanRunes line subUrl (rangeString line)).map
            fun n => { st with infos := st.infos + n }
        else if 0 < line.length ∧ line.head? ≠ some 32 ∧ line.head? ≠ some 35 then
          some { st with inSubUrls := false }
        else some st
      else some st
    after.map fun s => { s with newLines := s.newLines ++ [line] }

/-- The loop `for scanner.Scan()` over the lines the scanner delivers. -/
def runLoop (subUrl : GoString) : LoopState → List GoString → Option LoopState
  | st, [] => some st
  | st, line :: rest =>
    match loopBody subUrl st line with
    | none => none
    | some st1 => runLoop subUrl st1 rest

/-! ## Files -/

/-- The errors the two functions return, by their messages. -/
inductive GoError where
  /-- The error "配置文件路径未设置". -/
  | pathNotSet
  /-- The error "打开配置文件失败: ...". -/
  | openFailed
  /-- The error "读取配置文件失败: ...". -/
  | readFailed
  /-- The error "保存配置文件失败: ...". -/
  | writeFailed
deriving DecidableEq, Repr

/-- The file system as the function meets it. -/
structure World where
  /-- The content stored under a path; `none` when there is no such file. -/
  file : GoString → Option GoString
  /-- The call `os.Open` fails on this path although the file exists. -/
  openErr : GoString → Bool
  /-- A `Read` on this path fails once that many bytes have been delivered. -/
  readErr : GoString → Option Nat
  /-- The call `os.WriteFile` fails on this path and leaves this content. -/
  writeErr : GoString → Option GoString
  /-- The number of `os.WriteFile` calls made so far. -/
  writes : Nat

/-- The returned `error` (`none` is `nil`) and the file system left behind. -/
structure Outcome where
  err : Option GoError
  world : World

/-- The call `os.Open(configPath)`: the content to be read, or failure. -/
def World.open (w : World) (configPath : GoString) : Option GoString :=
  if w.openErr configPath = true then none else w.file configPath

/-- What the scanner delivers from an opened file of content `data`: the lines
of the bytes read before a read error, if one strikes. -/
def World.scan (w : World) (configPath data : GoString) : Scanned :=
  match w.readErr configPath with
  | none => scanLines data
  | some k => ⟨(scanLines (data.take k)).tokens, true⟩

/-- The file system after an `os.WriteFile` call that left `content` under
`configPath`. -/
def World.store (w : World) (configPath content : GoString) : World :=
  { w with
    file := fun p => if p = configPath then some content else w.file p,
    writes := w.writes + 1 }

/-- The call `os.WriteFile(configPath, newContent, 0644)`. -/
def World.writeFile (w : World) (configPath newContent : GoString) : Outcome :=
  match w.writeErr configPath with
  | none => ⟨none, w.store configPath newContent⟩
  | some left => ⟨some GoError.writeFailed, w.store configPath left⟩

/-- The function `RemoveSubUrl(configPath, subUrl)`; `none` is a panic. -/
def RemoveSubUrl (w : World) (configPath subUrl : GoString) : Option Outcome :=
  match w.open configPath with
  | none => some ⟨some GoError.openFailed, w⟩
  | some data =>
    match runLoop subUrl LoopState.init (w.scan configPath data).tokens with
    | none => none
    | some st =>
      if (w.scan configPath data).failed = true then some ⟨some GoError.readFailed, w⟩
      else some (w.writeFile configPath (joinLines st.newLines))

/-- The function `RemoveSubUrlFromConfig(subUrl)`, with the package variable
`GlobalConfigPath` as a parameter. -/
def RemoveSubUrlFromConfig (w : World) (GlobalConfigPath subUrl : GoString) :
    Option Outcome :=
  if GlobalConfigPath = [] then some ⟨some GoError.pathNotSet, w⟩
  else RemoveSubUrl w GlobalConfigPath subUrl

/-! ## The vocabulary of the specification

The specification speaks of the list section, of entry lines and of their
values. These definitions follow its wording; they are used to state what it
claims, never to define what the code does. -/

/-- The section header forms named by the specification: the bare header or
the header with an inline empty-list marker, compared after trimming. -/
def specIsHeader (line : GoString) : Bool :=
  TrimSpace line = lit "sub-urls:" ∨ TrimSpace line = lit "sub-urls: []"

/-- A line that ends the section in the specification's data model: it starts
with a character that is neither a space nor a comment marker. -/
def specEndsSection (line : GoString) : Bool :=
  match line with
  | [] => false
  | c :: _ => c ≠ 32 ∧ c ≠ 35

/-- For each line, whether it lies inside the list section of the
specification's data model (the header line itself does not), given whether the
section is open before the first line. -/
def specInSection : Bool → List GoString → List Bool
  | _, [] => []
  | false, l :: ls => false :: specInSection (specIsHeader l) ls
  | true, l :: ls =>
    if specEndsSection l then false :: specInSection false ls
    else true :: specInSection true ls

/-- The value of an entry line in the specification's sense: the line starts
with a space, its first non-space character is the item marker `-`, and the
value is the text after the marker, trimmed. `none` when the line is no entry. -/
def specEntryValue (line : GoString) : Option GoString :=
  if line.head? = some 32 then
    match line.dropWhile (· = 32) with
    | 45 :: value => some (TrimSpace value)
    | _ => none
  else none

/-- For each line, whether it is an entry inside the section whose value equals
the target. -/
def specMatches (target : GoString) (lines : List GoString) : List Bool :=
  List.zipWith (fun inside l => inside && decide (specEntryValue l = some target))
    (specInSection false lines) lines

/-- The number of entry lines inside the section whose value equals the target. -/
def specMatchCount (target : GoString) (lines : List GoString) : Nat :=
  (specMatches target lines).count true

/-- A blank line: nothing but spaces. -/
def isBlankLine (line : GoString) : Bool := line.dropWhile (· = 32) = []

/-- No space-indented line comes before the next top-level key or the end. -/
def noIndentedLineInSection : List GoString → Bool
  | [] => true
  | l :: ls =>
    if l.head? = some 32 then false
    else if specEndsSection l then true
    else noIndentedLineInSection ls

/-! ## Concrete files -/

/-- A file system without faults that holds one file. -/
def worldWith (path content : GoString) : World where
  file := fun p => if p = path then some content else none
  openErr := fun _ => false
  readErr := fun _ => none
  writeErr := fun _ => none
  writes := 0

/-- The path used in the examples. -/
def examplePath : GoString := lit "config.yaml"

/-- The five lines of the specification's scenario. -/
def scenarioLines : List GoString :=
  [lit "sub-urls:", lit "  - http://a.example/sub", lit "  # a comment",
   lit "  - http://b.example/sub", lit "timeout: 30"]

/-- The scenario as a text file, every line terminated. -/
def scenarioFile : GoString :=
  lit "sub-urls:\n  - http://a.example/sub\n  # a comment\n  - http://b.example/sub\ntimeout: 30\n"

/-- What is observed of an outcome in the examples: the returned error, the
content stored under the example path, and the number of writes. -/
def observe (o : Option Outcome) : Option (Option GoError × Option GoString × Nat) :=
  o.map fun r => (r.err, r.world.file examplePath, r.world.writes)

/-- The scenario with its first entry listed twice. -/
def duplicateLines : List GoString :=
  [lit "sub-urls:", lit "  - http://a.example/sub", lit "  - http://a.example/sub",
   lit "timeout: 30"]

/-- Two calls in a row on the same path with the same target. -/
def RemoveSubUrlTwice (w : World) (configPath subUrl : GoString) : Option Outcome :=
  (RemoveSubUrl w configPath subUrl).bind fun o => RemoveSubUrl o.world configPath subUrl

/-- A file whose last line is a blank line that follows a top-level key after
the section. -/
def blankAfterSectionFile : GoString := lit "sub-urls:\n  - a\ntimeout: 30\n\n"

/-- A file whose last line is a blank line inside the section. -/
def blankInSectionFile : GoString := lit "sub-urls:\n  - a\n\n"

/-- The inner loop of `scanRunes` once more, recording the byte offsets of the
`'-'` runes at which `urlPart` is computed and compared with `subUrl`, in the
order the loop meets them. -/
def comparedAt (line subUrl : GoString) : List (Nat × Nat) → List Nat
  | [] => []
  | (i, ch) :: rest =>
    if ch = 45 then
      match sliceFrom line (i + 1) with
      | none => []
      | some tail =>
        if TrimSpace tail = subUrl then i :: comparedAt line subUrl rest
        else [i]
    else comparedAt line subUrl rest

/-- The file system after `n` calls of `RemoveSubUrl` in a row on the same path
with the same target; `none` is a panic. -/
def RemoveSubUrlRepeated (configPath subUrl : GoString) : Nat → World → Option World
  | 0, w => some w
  | n + 1, w =>
    match RemoveSubUrl w configPath subUrl with
    | none => none
    | some o => RemoveSubUrlRepeated configPath subUrl n o.world

/-- A line inside the section that is indented but is no entry: a nested key
whose value holds `-` followed by a URL. -/
def nestedKeyLine : GoString := lit "  key: x - http://a.example/sub"

/-- An entry line followed by bytes that are no valid UTF-8, with a `-` between
them. -/
def brokenUtf8Line : GoString := lit "  - 配" ++ [0xE2, 45, 0x80]

/-- A file with the nested key line inside the section. -/
def nestedKeyFile : GoString :=
  lit "sub-urls:\n  key: x - http://a.example/sub\ntimeout: 30\n"

/-! ## The line loop never panics and keeps every line -/

theorem rangeFrom_index_lt (s : GoString) : ∀ (i k : Nat) (p : Nat × Nat),
    p ∈ rangeFrom i k s → i ≤ p.1 ∧ p.1 < i + s.length := by
  induction s with
  | nil => intro i k p h; simp [rangeFrom] at h
  | cons b s ih =>
    intro i k p h
    unfold rangeFrom at h
    split at h
    · have := ih _ _ p h
      simp only [List.length_cons]; omega
    · rcases List.mem_cons.1 h with h | h
      · subst h; simp only [List.length_cons]; omega
      · have := ih _ _ p h
        simp only [List.length_cons]; omega

theorem rangeString_index_lt (s : GoString) (p : Nat × Nat) (h : p ∈ rangeString s) :
    p.1 < s.length := by
  have := rangeFrom_index_lt s 0 0 p h
  omega

theorem scanRunes_isSome (line subUrl : GoString) : ∀ (ps : List (Nat × Nat)),
    (∀ p ∈ ps, p.1 < line.length) → ∃ n, scanRunes line subUrl ps = some n := by
  intro ps
  induction ps with
  | nil => intro _; exact ⟨0, rfl⟩
  | cons p ps ih =>
    intro h
    obtain ⟨i, ch⟩ := p
    have hi : i < line.length := h (i, ch) (List.mem_cons_self _ _)
    obtain ⟨n, hn⟩ := ih (fun q hq => h q (List.mem_cons_of_mem _ hq))
    unfold scanRunes
    by_cases hc : ch = 45
    · have hs : sliceFrom line (i + 1) = some (line.drop (i + 1)) := by
        unfold sliceFrom
        rw [if_pos (by omega)]
      simp only [hc, if_true, hs]
      by_cases hu : TrimSpace (List.drop (i + 1) line) = subUrl
      · simp [hu, hn]
      · simp [hu]
    · simp only [hc, if_false]
      exact ⟨n, hn⟩

theorem scanLine_isSome (line subUrl : GoString) :
    ∃ n, scanRunes line subUrl (rangeString line) = some n :=
  scanRunes_isSome line subUrl _ (fun p hp => rangeString_index_lt line p hp)

/-- The body of the loop returns, and it appends the line to `newLines`. -/
theorem loopBody_keeps (subUrl : GoString) (st : LoopState) (line : GoString) :
    ∃ st1, loopBody subUrl st line = some st1 ∧ st1.newLines = st.newLines ++ [line] := by
  obtain ⟨n, hn⟩ := scanLine_isSome line subUrl
  unfold loopBody
  simp only
  split
  · exact ⟨_, rfl, rfl⟩
  · split
    · split
      · rw [hn]; exact ⟨_, rfl, rfl⟩
      · split <;> exact ⟨_, rfl, rfl⟩
    · exact ⟨_, rfl, rfl⟩

/-- The loop returns, and `newLines` grows by exactly the lines processed. -/
theorem runLoop_keeps (subUrl : GoString) : ∀ (lines : List GoString) (st : LoopState),
    ∃ st1, runLoop subUrl st lines = some st1 ∧ st1.newLines = st.newLines ++ lines := by
  intro lines
  induction lines with
  | nil => intro st; exact ⟨st, rfl, by simp⟩
  | cons l ls ih =>
    intro st
    obtain ⟨s1, h1, h2⟩ := loopBody_keeps subUrl st l
    obtain ⟨s2, h3, h4⟩ := ih s1
    refine ⟨s2, ?_, ?_⟩
    · simp only [runLoop, h1, h3]
    · rw [h4, h2]; simp

theorem runLoop_append (subUrl : GoString) : ∀ (pre post : List GoString) (st : LoopState),
    runLoop subUrl st (pre ++ post) =
      (runLoop subUrl st pre).bind fun s => runLoop subUrl s post := by
  intro pre
  induction pre with
  | nil => intro post st; rfl
  | cons l ls ih =>
    intro post st
    simp only [List.cons_append, runLoop]
    cases loopBody subUrl st l with
    | none => rfl
    | some s1 => exact ih post s1

/-! ## Splitting into lines and joining again -/

theorem dropCR_of_not_mem (data : GoString) (h : 13 ∉ data) : dropCR data = data := by
  unfold dropCR
  split
  · next hl => exact absurd (List.mem_of_getLast?_eq_some hl) h
  · rfl

theorem chompNL_of_not_mem (data : GoString) (h : 10 ∉ data) : chompNL data = data := by
  unfold chompNL
  split
  · next hl => exact absurd (List.mem_of_getLast?_eq_some hl) h
  · rfl

theorem chompNL_append (a b : GoString) (hb : b ≠ []) :
    chompNL (a ++ b) = a ++ chompNL b := by
  unfold chompNL
  rw [List.getLast?_append_of_ne_nil a hb]
  split
  · rw [List.dropLast_append_of_ne_nil a hb]
  · rfl

theorem chompNL_append_newline (a : GoString) : chompNL (a ++ [10]) = a := by
  unfold chompNL
  simp

theorem scanLinesFrom_tokens_ne_nil (data : GoString) : ∀ (cur : GoString),
    (scanLinesFrom cur data).failed = false → cur ++ data ≠ [] →
      (scanLinesFrom cur data).tokens ≠ [] := by
  induction data with
  | nil =>
    intro cur hf hne
    have hc : cur ≠ [] := by simpa using hne
    unfold scanLinesFrom at hf ⊢
    rw [if_neg hc] at hf ⊢
    split at hf
    · simp at hf
    · next hlen => rw [if_neg hlen]; simp
  | cons b rest ih =>
    intro cur hf _
    unfold scanLinesFrom at hf ⊢
    by_cases hb : b = 10
    · rw [if_pos hb] at hf ⊢
      split at hf
      · simp at hf
      · next hlen => rw [if_neg hlen]; simp
    · rw [if_neg hb] at hf ⊢
      exact ih _ hf (by simp)

/-- Joining the scanned lines of a content without `\r` gives the content back,
less one final `\n`. -/
theorem joinLines_scanLinesFrom (data : GoString) : ∀ (cur : GoString),
    (scanLinesFrom cur data).failed = false → 13 ∉ cur ++ data → 10 ∉ cur →
      joinLines (scanLinesFrom cur data).tokens = chompNL (cur ++ data) := by
  induction data with
  | nil =>
    intro cur hf hcr hnl
    unfold scanLinesFrom at hf ⊢
    by_cases hc : cur = []
    · subst hc; simp [joinLines, chompNL]
    · rw [if_neg hc] at hf ⊢
      split at hf
      · simp at hf
      · next hlen =>
        rw [if_neg hlen]
        simp only [List.append_nil] at hcr ⊢
        rw [dropCR_of_not_mem cur hcr, chompNL_of_not_mem cur hnl]
        rfl
  | cons b rest ih =>
    intro cur hf hcr hnl
    have hcur : 13 ∉ cur := fun h => hcr (List.mem_append_left _ h)
    have hrest : 13 ∉ rest := fun h =>
      hcr (List.mem_append_right _ (List.mem_cons_of_mem _ h))
    have hb13 : b ≠ 13 := fun h =>
      hcr (List.mem_append_right _ (h ▸ List.mem_cons_self _ _))
    unfold scanLinesFrom at hf ⊢
    by_cases hb : b = 10
    · subst hb
      rw [if_pos rfl] at hf ⊢
      split at hf
      · simp at hf
      · next hlen =>
        rw [if_neg hlen]
        simp only at hf ⊢
        rw [dropCR_of_not_mem cur hcur]
        have hih := ih [] hf (by simpa using hrest) (by simp)
        simp only [List.nil_append] at hih
        by_cases hr : rest = []
        · subst hr
          simp only [scanLinesFrom, if_true, joinLines]
          exact (chompNL_append_newline cur).symm
        · have hne := scanLinesFrom_tokens_ne_nil rest [] hf (by simpa using hr)
          obtain ⟨m, ms, hm⟩ := List.exists_cons_of_ne_nil hne
          rw [hm] at hih ⊢
          simp only [joinLines] at hih ⊢
          rw [hih]
          have : cur ++ 10 :: rest = (cur ++ [10]) ++ rest := by simp
          rw [this, chompNL_append _ _ hr]
          simp
    · rw [if_neg hb] at hf ⊢
      have hih := ih (cur ++ [b]) hf (by simpa using hcr)
        (by simp only [List.mem_append, List.mem_singleton, not_or]; exact ⟨hnl, fun h => hb h.symm⟩)
      rw [hih]; simp

theorem joinLines_scanLines (data : GoString) (hf : (scanLines data).failed = false)
    (hcr : 13 ∉ data) : joinLines (scanLines data).tokens = chompNL data := by
  have := joinLines_scanLinesFrom data [] hf (by simpa using hcr) (by simp)
  simpa using this

theorem scanLinesFrom_chompNL (data : GoString) : ∀ (cur : GoString),
    (scanLinesFrom cur data).failed = false →
      (scanLinesFrom cur (chompNL data)).failed = false := by
  induction data with
  | nil => intro cur hf; simpa [chompNL] using hf
  | cons b rest ih =>
    intro cur hf
    by_cases hr : rest = []
    · subst hr
      by_cases hb : b = 10
      · subst hb
        have : chompNL [10] = [] := by simp [chompNL]
        rw [this]
        unfold scanLinesFrom at hf ⊢
        rw [if_pos rfl] at hf
        split at hf
        · simp at hf
        · next hlen => rw [if_neg hlen]; split <;> rfl
      · have : chompNL [b] = [b] := by simp [chompNL, hb]
        rw [this]; exact hf
    · have : chompNL (b :: rest) = b :: chompNL rest := by
        have := chompNL_append [b] rest hr
        simpa using this
      rw [this]
      unfold scanLinesFrom at hf ⊢
      by_cases hb : b = 10
      · rw [if_pos hb] at hf ⊢
        split at hf
        · simp at hf
        · next hlen => rw [if_neg hlen]; exact ih [] hf
      · rw [if_neg hb] at hf ⊢
        exact ih _ hf

theorem chompNL_of_getLast_ne (data : GoString) (h : data.getLast? ≠ some 10) :
    chompNL data = data := by
  unfold chompNL
  rw [if_neg h]

theorem chompNL_sublist (data : GoString) : (chompNL data).Sublist data := by
  unfold chompNL
  split
  · exact List.dropLast_sublist data
  · exact List.Sublist.refl data

theorem chompNL_getLast_ne (data : GoString) (h : ¬ [10, 10] <:+ data) :
    (chompNL data).getLast? ≠ some 10 := by
  unfold chompNL
  split
  · next hl =>
    intro h2
    apply h
    obtain ⟨a, ha⟩ : ∃ a, data = a ++ [10] := by
      rcases List.eq_nil_or_concat data with h0 | ⟨a, x, hx⟩
      · subst h0; simp at hl
      · subst hx; simp at hl; subst hl; exact ⟨a, by simp⟩
    subst ha
    simp only [List.dropLast_concat] at h2
    obtain ⟨a2, ha2⟩ : ∃ a2, a = a2 ++ [10] := by
      rcases List.eq_nil_or_concat a with h0 | ⟨a2, x, hx⟩
      · subst h0; simp at h2
      · subst hx; simp at h2; subst h2; exact ⟨a2, by simp⟩
    subst ha2
    exact ⟨a2, by simp⟩
  · next hl => exact hl

/-! ## `RemoveSubUrl` as a whole -/

/-- The function returns on every input (it never panics), with the error of the
first step that fails, and what it writes is the join of the lines it read. -/
theorem RemoveSubUrl_eq (w : World) (configPath subUrl : GoString) :
    RemoveSubUrl w configPath subUrl = some
      (match w.open configPath with
       | none => ⟨some GoError.openFailed, w⟩
       | some data =>
         if (w.scan configPath data).failed = true then ⟨some GoError.readFailed, w⟩
         else w.writeFile configPath (joinLines (w.scan configPath data).tokens)) := by
  unfold RemoveSubUrl
  cases hopen : w.open configPath with
  | none => rfl
  | some data =>
    obtain ⟨st, hst, hnl⟩ := runLoop_keeps subUrl (w.scan configPath data).tokens LoopState.init
    simp only [hst]
    have : st.newLines = (w.scan configPath data).tokens := by
      rw [hnl]; simp [LoopState.init]
    rw [this]
    split <;> rfl

theorem World.scan_failed_of_readErr (w : World) (configPath data : GoString) (k : Nat)
    (h : w.readErr configPath = some k) : (w.scan configPath data).failed = true := by
  unfold World.scan
  rw [h]

theorem World.scan_of_not_failed (w : World) (configPath data : GoString)
    (h : (w.scan configPath data).failed = false) :
    w.readErr configPath = none ∧ w.scan configPath data = scanLines data := by
  cases hr : w.readErr configPath with
  | none => exact ⟨rfl, by unfold World.scan; rw [hr]⟩
  | some k =>
    rw [World.scan_failed_of_readErr w configPath data k hr] at h
    exact absurd h (by simp)

/-- A call that returns `nil` opened the file, scanned it to the end, and
wrote the join of its lines; nothing else in the file system changed. -/
theorem RemoveSubUrl_nil (w : World) (configPath subUrl : GoString) (o : Outcome)
    (hrun : RemoveSubUrl w configPath subUrl = some o) (hok : o.err = none) :
    ∃ data, w.open configPath = some data ∧ w.readErr configPath = none ∧
      (scanLines data).failed = false ∧ w.writeErr configPath = none ∧
      o = ⟨none, w.store configPath (joinLines (scanLines data).tokens)⟩ := by
  rw [RemoveSubUrl_eq] at hrun
  cases hopen : w.open configPath with
  | none =>
    rw [hopen] at hrun
    simp only [Option.some.injEq] at hrun
    subst hrun
    simp at hok
  | some data =>
    rw [hopen] at hrun
    simp only [Option.some.injEq] at hrun
    by_cases hf : (w.scan configPath data).failed = true
    · rw [if_pos hf] at hrun
      subst hrun
      simp at hok
    · rw [if_neg hf] at hrun
      have hf2 : (w.scan configPath data).failed = false := by simpa using hf
      obtain ⟨hre, hsc⟩ := World.scan_of_not_failed w configPath data hf2
      rw [hsc] at hrun hf2
      refine ⟨data, rfl, hre, hf2, ?_⟩
      unfold World.writeFile at hrun
      cases hw : w.writeErr configPath with
      | none =>
        rw [hw] at hrun
        exact ⟨rfl, hrun.symm⟩
      | some left =>
        rw [hw] at hrun
        subst hrun
        simp at hok

/-- In a file system without faults on the path, the call returns `nil`. -/
theorem RemoveSubUrl_of_no_fault (w : World) (configPath subUrl data : GoString)
    (hopen : w.open configPath = some data) (hre : w.readErr configPath = none)
    (hsc : (scanLines data).failed = false) (hwr : w.writeErr configPath = none) :
    RemoveSubUrl w configPath subUrl =
      some ⟨none, w.store configPath (joinLines (scanLines data).tokens)⟩ := by
  have hscan : w.scan configPath data = scanLines data := by
    unfold World.scan; rw [hre]
  rw [RemoveSubUrl_eq, hopen]
  simp [hscan, hsc, World.writeFile, hwr]

theorem RemoveSubUrl_err_ne_pathNotSet (w : World) (configPath subUrl : GoString)
    (o : Outcome) (hrun : RemoveSubUrl w configPath subUrl = some o) :
    o.err ≠ some GoError.pathNotSet := by
  rw [RemoveSubUrl_eq] at hrun
  simp only [Option.some.injEq] at hrun
  subst hrun
  cases w.open configPath with
  | none => simp
  | some data =>
    simp only
    split
    · simp
    · unfold World.writeFile
      cases w.writeErr configPath <;> simp

/-- A line met after the lines `pre` is appended to `newLines` by its own step
and stays in place until the end of the loop. -/
theorem runLoop_line_kept (subUrl : GoString) (pre : List GoString) (l : GoString)
    (post : List GoString) (st : LoopState)
    (hpre : runLoop subUrl LoopState.init pre = some st) :
    ∃ st1 st2, loopBody subUrl st l = some st1 ∧ st1.newLines = st.newLines ++ [l] ∧
      runLoop subUrl LoopState.init (pre ++ l :: post) = some st2 ∧
      ∃ out, st2.newLines = st.newLines ++ l :: out := by
  obtain ⟨st1, h1, h1n⟩ := loopBody_keeps subUrl st l
  obtain ⟨st2, h2, h2n⟩ := runLoop_keeps subUrl post st1
  refine ⟨st1, st2, h1, h1n, ?_, post, ?_⟩
  · rw [runLoop_append, hpre]
    simp only [Option.bind, runLoop, h1, h2]
  · rw [h2n, h1n]; simp

/-- Outside the section a line that is no header changes nothing but
`newLines`. -/
theorem loopBody_outside (subUrl : GoString) (st : LoopState) (line : GoString)
    (hout : st.inSubUrls = false) (hh : specIsHeader line = false) :
    loopBody subUrl st line = some { st with newLines := st.newLines ++ [line] } := by
  have hh2 : ¬ (TrimSpace line = lit "sub-urls:" ∨ TrimSpace line = lit "sub-urls: []") := by
    simpa [specIsHeader] using hh
  unfold loopBody
  simp only
  rw [if_neg (fun h => hh2 h.2)]
  simp [hout]

/-- Outside the section a header line opens it and is kept. -/
theorem loopBody_header (subUrl : GoString) (st : LoopState) (line : GoString)
    (hout : st.inSubUrls = false) (hh : specIsHeader line = true) :
    loopBody subUrl st line =
      some { st with inSubUrls := true, newLines := st.newLines ++ [line] } := by
  have hh2 : TrimSpace line = lit "sub-urls:" ∨ TrimSpace line = lit "sub-urls: []" := by
    simpa [specIsHeader] using hh
  unfold loopBody
  simp only
  rw [if_pos ⟨hout, hh2⟩]

theorem runLoop_before_header (subUrl : GoString) : ∀ (pre : List GoString) (st : LoopState),
    st.inSubUrls = false → (∀ l ∈ pre, specIsHeader l = false) →
      runLoop subUrl st pre = some { st with newLines := st.newLines ++ pre } := by
  intro pre
  induction pre with
  | nil => intro st _ _; simp [runLoop]
  | cons l ls ih =>
    intro st hout hpre
    have h1 := loopBody_outside subUrl st l hout (hpre l (List.mem_cons_self _ _))
    simp only [runLoop, h1]
    rw [ih ⟨st.inSubUrls, st.newLines ++ [l], st.infos⟩ hout
      (fun m hm => hpre m (List.mem_cons_of_mem _ hm))]
    simp

/-! ## Runes and bytes -/

/-- A rune decoded as `'-'` starts at a byte `'-'`: no multi-byte sequence and
no invalid byte decodes to it. -/
theorem DecodeRuneInString_dash (b : Nat) (s : GoString)
    (h : (DecodeRuneInString (b :: s)).1 = 45) : b = 45 := by
  unfold DecodeRuneInString at h
  simp only [RuneError, RuneSelf] at h
  cases hl : leadInfo b with
  | none =>
    rw [hl] at h
    simp only at h
    split at h
    · exact h
    · simp at h
  | some info =>
    obtain ⟨sz, lo, hi⟩ := info
    rw [hl] at h
    simp only at h
    have hlead : 0xC2 ≤ b ∧ b ≤ 0xF4 ∧ (b = 0xE0 → lo = 0xA0) ∧ (b = 0xF0 → lo = 0x90) ∧
        (sz = 2 → b ≤ 0xDF) ∧ (sz = 3 → 0xE0 ≤ b ∧ b ≤ 0xEF) ∧ (sz = 4 → 0xF0 ≤ b) ∧
        (sz = 2 ∨ sz = 3 ∨ sz = 4) ∧ 0x80 ≤ lo ∧ hi ≤ 0xBF := by
      unfold leadInfo at hl
      repeat' split at hl
      all_goals first
        | (simp only [Option.some.injEq, Prod.mk.injEq] at hl
           obtain ⟨h1, h2, h3⟩ := hl
           subst h1 h2 h3
           omega)
        | simp at hl
    split at h
    · simp at h
    · cases s with
      | nil => simp at h
      | cons s1 t1 =>
        simp only at h
        split at h
        · simp at h
        · split at h
          · simp only at h; omega
          · cases t1 with
            | nil => simp at h
            | cons s2 t2 =>
              simp only at h
              split at h
              · simp at h
              · split at h
                · simp only at h; omega
                · cases t2 with
                  | nil => simp at h
                  | cons s3 t3 =>
                    simp only at h
                    split at h
                    · simp at h
                    · simp only at h; omega

/-- Every pair of the range loop carries the rune decoded at its offset. -/
theorem rangeFrom_mem_decode (s : GoString) : ∀ (i k : Nat) (p : Nat × Nat),
    p ∈ rangeFrom i k s → ∃ j, p.1 = i + j ∧ j < s.length ∧
      p.2 = (DecodeRuneInString (s.drop j)).1 := by
  induction s with
  | nil => intro i k p h; simp [rangeFrom] at h
  | cons b s ih =>
    intro i k p h
    unfold rangeFrom at h
    split at h
    · obtain ⟨j, h1, h2, h3⟩ := ih _ _ p h
      exact ⟨j + 1, by omega, by simp only [List.length_cons]; omega, by simpa using h3⟩
    · rcases List.mem_cons.1 h with h | h
      · subst h
        exact ⟨0, rfl, by simp, rfl⟩
      · obtain ⟨j, h1, h2, h3⟩ := ih _ _ p h
        exact ⟨j + 1, by omega, by simp only [List.length_cons]; omega, by simpa using h3⟩

/-- The range loop finds `'-'` only at offsets that hold the byte `'-'`. -/
theorem rangeString_dash_byte (s : GoString) (p : Nat × Nat) (h : p ∈ rangeString s)
    (hd : p.2 = 45) : s.get? p.1 = some 45 := by
  obtain ⟨j, h1, h2, h3⟩ := rangeFrom_mem_decode s 0 0 p h
  have hj : p.1 = j := by omega
  rw [hj]
  rw [hd] at h3
  cases hdrop : s.drop j with
  | nil =>
    have := List.drop_eq_nil_iff.1 hdrop
    omega
  | cons b t =>
    rw [hdrop] at h3
    have hb := DecodeRuneInString_dash b t h3.symm
    subst hb
    have : (s.drop j).head? = some 45 := by rw [hdrop]; rfl
    rw [List.head?_drop] at this
    simpa using this

/-! ## Calls in a row -/

theorem World.open_eq_some (w : World) (configPath data : GoString)
    (h : w.open configPath = some data) :
    w.openErr configPath ≠ true ∧ w.file configPath = some data := by
  unfold World.open at h
  by_cases he : w.openErr configPath = true
  · rw [if_pos he] at h; exact absurd h (by simp)
  · rw [if_neg he] at h; exact ⟨he, h⟩

theorem World.store_open (w : World) (configPath content : GoString)
    (h : w.openErr configPath ≠ true) :
    (w.store configPath content).open configPath = some content := by
  unfold World.open World.store
  simp only [if_neg h, if_true]

theorem chompNL_iterate_not_mem (n : Nat) : ∀ (data : GoString), 13 ∉ data →
    13 ∉ Nat.iterate chompNL n data := by
  induction n with
  | zero => intro data h; exact h
  | succ n ih =>
    intro data h
    rw [Function.iterate_succ_apply]
    exact ih _ (fun h2 => h ((chompNL_sublist data).subset h2))

theorem chompNL_iterate_newlines (base : GoString) : ∀ (n k : Nat), n ≤ k →
    Nat.iterate chompNL n (base ++ List.replicate k 10) =
      base ++ List.replicate (k - n) 10 := by
  intro n
  induction n with
  | zero => intro k _; rfl
  | succ n ih =>
    intro k hk
    obtain ⟨m, rfl⟩ : ∃ m, k = m + 1 := ⟨k - 1, by omega⟩
    rw [Function.iterate_succ_apply]
    have h1 : base ++ List.replicate (m + 1) 10 = (base ++ List.replicate m 10) ++ [10] := by
      rw [List.replicate_succ']; simp
    rw [h1, chompNL_append_newline, ih m (by omega)]
    congr 2
    omega

/-- On a path without faults, `n` calls in a row return and take `n` final
newlines, as far as there are any, off a content without carriage returns. -/
theorem RemoveSubUrlRepeated_file (configPath subUrl : GoString) : ∀ (n : Nat) (w : World)
    (data : GoString), w.open configPath = some data → w.readErr configPath = none →
      w.writeErr configPath = none → (scanLines data).failed = false → 13 ∉ data →
      ∃ w1, RemoveSubUrlRepeated configPath subUrl n w = some w1 ∧
        w1.file configPath = some (Nat.iterate chompNL n data) := by
  intro n
  induction n with
  | zero =>
    intro w data hopen _ _ _ _
    exact ⟨w, rfl, (World.open_eq_some w configPath data hopen).2⟩
  | succ n ih =>
    intro w data hopen hre hwr hsc hcr
    have hoe := (World.open_eq_some w configPath data hopen).1
    have hcall := RemoveSubUrl_of_no_fault w configPath subUrl data hopen hre hsc hwr
    rw [joinLines_scanLines data hsc hcr] at hcall
    obtain ⟨w1, hw1, hfile⟩ := ih (w.store configPath (chompNL data)) (chompNL data)
      (World.store_open w configPath _ hoe) hre hwr (scanLinesFrom_chompNL data [] hsc)
      (fun h => hcr ((chompNL_sublist data).subset h))
    refine ⟨w1, ?_, ?_⟩
    · simp only [RemoveSubUrlRepeated, hcall, hw1]
    · rw [hfile, Function.iterate_succ_apply]

/-! ## The steps of the state machine inside the section -/

/-- Inside the section a line that starts with a space is scanned for `'-'`,
kept, and leaves the section open. -/
theorem loopBody_indented (subUrl : GoString) (st : LoopState) (line : GoString)
    (hin : st.inSubUrls = true) (hsp : line.head? = some 32) :
    ∃ n, scanRunes line subUrl (rangeString line) = some n ∧
      loopBody subUrl st line = some ⟨true, st.newLines ++ [line], st.infos + n⟩ := by
  obtain ⟨n, hn⟩ := scanLine_isSome line subUrl
  refine ⟨n, hn, ?_⟩
  have hlen : 0 < line.length := by
    cases line with
    | nil => simp at hsp
    | cons c r => simp
  unfold loopBody
  simp only
  rw [if_neg (by simp [hin]), if_pos hin, if_pos ⟨hlen, hsp⟩, hn]
  simp [hin]

/-- Inside the section an empty line and a line that starts with `#` are kept
without being scanned, and leave the section open. -/
theorem loopBody_empty_or_hash (subUrl : GoString) (st : LoopState) (line : GoString)
    (hin : st.inSubUrls = true) (hl : line = [] ∨ line.head? = some 35) :
    loopBody subUrl st line = some ⟨true, st.newLines ++ [line], st.infos⟩ := by
  have h1 : ¬ (0 < line.length ∧ line.head? = some 32) := by
    rcases hl with hl | hl
    · subst hl; simp
    · rw [hl]; simp
  have h2 : ¬ (0 < line.length ∧ line.head? ≠ some 32 ∧ line.head? ≠ some 35) := by
    rcases hl with hl | hl
    · subst hl; simp
    · rw [hl]; simp
  unfold loopBody
  simp only
  rw [if_neg (by simp [hin]), if_pos hin, if_neg h1, if_neg h2]
  simp [hin]

/-- The record of comparisons agrees with the loop: every comparison but
possibly the last one is a match that is logged. -/
theorem comparedAt_length (line subUrl : GoString) : ∀ (ps : List (Nat × Nat)) (n : Nat),
    scanRunes line subUrl ps = some n →
      n ≤ (comparedAt line subUrl ps).length ∧
        (comparedAt line subUrl ps).length ≤ n + 1 := by
  intro ps
  induction ps with
  | nil => intro n h; simp [scanRunes] at h; subst h; simp [comparedAt]
  | cons p ps ih =>
    intro n h
    obtain ⟨i, ch⟩ := p
    unfold scanRunes at h
    unfold comparedAt
    by_cases hc : ch = 45
    · simp only [hc, if_true] at h ⊢
      cases hs : sliceFrom line (i + 1) with
      | none => rw [hs] at h; simp at h
      | some tail =>
        rw [hs] at h
        simp only at h ⊢
        by_cases hu : TrimSpace tail = subUrl
        · rw [if_pos hu] at h ⊢
          cases hr : scanRunes line subUrl ps with
          | none => rw [hr] at h; simp at h
          | some m =>
            rw [hr] at h
            simp only [Option.map_some', Option.some.injEq] at h
            have := ih m hr
            simp only [List.length_cons]
            omega
        · rw [if_neg hu] at h ⊢
          simp only [Option.some.injEq] at h
          subst h
          simp
    · simp only [hc, if_false] at h ⊢
      exact ih n h

/-! ## Where a line lies in the joined content -/

theorem joinLines_cons_of_ne_nil (a : GoString) (rest : List GoString) (h : rest ≠ []) :
    joinLines (a :: rest) = a ++ 10 :: joinLines rest := by
  cases rest with
  | nil => exact absurd rfl h
  | cons m r => rfl

theorem joinLines_cons (post : List GoString) : ∀ (l : GoString),
    joinLines (l :: post) = l ++ (post.map (10 :: ·)).flatten := by
  induction post with
  | nil => intro l; simp [joinLines]
  | cons m r ih =>
    intro l
    rw [joinLines_cons_of_ne_nil l (m :: r) (by simp), ih m]
    simp

/-- In the joined content a line stands byte for byte between the lines before
it, each followed by a newline, and the lines after it, each preceded by one. -/
theorem joinLines_split (pre : List GoString) (l : GoString) (post : List GoString) :
    joinLines (pre ++ l :: post) =
      (pre.map (· ++ [10])).flatten ++ l ++ (post.map (10 :: ·)).flatten := by
  induction pre with
  | nil => simpa using joinLines_cons post l
  | cons a pre ih =>
    rw [List.cons_append, joinLines_cons_of_ne_nil a _ (by simp), ih]
    simp

theorem dropCR_sublist (data : GoString) : (dropCR data).Sublist data := by
  unfold dropCR
  split
  · exact List.dropLast_sublist data
  · exact List.Sublist.refl data

/-- The lines of a scan that did not fail hold no newline and are shorter than
the token limit. -/
theorem scanLinesFrom_tokens_short (data : GoString) : ∀ (cur : GoString),
    (scanLinesFrom cur data).failed = false → 10 ∉ cur →
      ∀ tk ∈ (scanLinesFrom cur data).tokens, 10 ∉ tk ∧ tk.length < MaxScanTokenSize := by
  induction data with
  | nil =>
    intro cur hf hnl tk htk
    unfold scanLinesFrom at hf htk
    by_cases hc : cur = []
    · rw [if_pos hc] at htk; simp at htk
    · rw [if_neg hc] at hf htk
      split at hf
      · simp at hf
      · next hlen =>
        rw [if_neg hlen] at htk
        simp only [List.mem_singleton] at htk
        subst htk
        exact ⟨fun h => hnl ((dropCR_sublist cur).subset h),
          Nat.lt_of_le_of_lt (dropCR_sublist cur).length_le (by omega)⟩
  | cons b rest ih =>
    intro cur hf hnl tk htk
    unfold scanLinesFrom at hf htk
    by_cases hb : b = 10
    · rw [if_pos hb] at hf htk
      split at hf
      · simp at hf
      · next hlen =>
        rw [if_neg hlen] at htk
        simp only [List.mem_cons] at htk
        rcases htk with htk | htk
        · subst htk
          exact ⟨fun h => hnl ((dropCR_sublist cur).subset h),
            Nat.lt_of_le_of_lt (dropCR_sublist cur).length_le (by omega)⟩
        · exact ih [] hf (by simp) tk htk
    · rw [if_neg hb] at hf htk
      exact ih (cur ++ [b]) hf
        (by simp only [List.mem_append, List.mem_singleton, not_or]
            exact ⟨hnl, fun h => hb h.symm⟩) tk htk

/-- Scanning a line that is followed by a newline delivers the line, less one
terminal carriage return, and goes on behind the newline. -/
theorem scanLinesFrom_line_newline (l : GoString) : ∀ (cur rest : GoString), 10 ∉ l →
    (cur ++ l).length < MaxScanTokenSize →
      (scanLinesFrom cur (l ++ 10 :: rest)).tokens =
        dropCR (cur ++ l) :: (scanLinesFrom [] rest).tokens := by
  induction l with
  | nil =>
    intro cur rest _ hlen
    simp only [List.nil_append, List.append_nil] at hlen ⊢
    conv_lhs => unfold scanLinesFrom
    rw [if_pos rfl, if_neg (by omega)]
  | cons b l ih =>
    intro cur rest hnl hlen
    have hb : b ≠ 10 := fun h => hnl (h ▸ List.mem_cons_self _ _)
    have hl : 10 ∉ l := fun h => hnl (List.mem_cons_of_mem _ h)
    simp only [List.cons_append]
    conv_lhs => unfold scanLinesFrom
    rw [if_neg hb]
    have := ih (cur ++ [b]) rest hl (by simpa using hlen)
    simpa using this

/-- Scanning a last line that is not empty and has no newline after it delivers
the line, less one terminal carriage return. -/
theorem scanLinesFrom_last_line (l : GoString) : ∀ (cur : GoString), 10 ∉ l →
    cur ++ l ≠ [] → (cur ++ l).length < MaxScanTokenSize →
      (scanLinesFrom cur l).tokens = [dropCR (cur ++ l)] := by
  induction l with
  | nil =>
    intro cur _ hne hlen
    simp only [List.append_nil] at hne hlen ⊢
    unfold scanLinesFrom
    rw [if_neg hne, if_neg (by omega)]
  | cons b l ih =>
    intro cur hnl _ hlen
    have hb : b ≠ 10 := fun h => hnl (h ▸ List.mem_cons_self _ _)
    have hl : 10 ∉ l := fun h => hnl (List.mem_cons_of_mem _ h)
    conv_lhs => unfold scanLinesFrom
    rw [if_neg hb]
    have := ih (cur ++ [b]) hl (by simp) (by simpa using hlen)
    simpa using this

/-- Reading the joined content again delivers, at the place of a line that is
not empty, that line less one terminal carriage return. -/
theorem scanLines_joinLines_get (pre : List GoString) (l : GoString)
    (post : List GoString)
    (hall : ∀ tk ∈ pre ++ l :: post, 10 ∉ tk ∧ tk.length < MaxScanTokenSize)
    (hl : l ≠ []) :
    (scanLines (joinLines (pre ++ l :: post))).tokens.get? pre.length = some (dropCR l) := by
  induction pre with
  | nil =>
    have hlp := hall l (by simp)
    cases post with
    | nil =>
      simp only [List.nil_append, joinLines, scanLines, List.length_nil]
      rw [scanLinesFrom_last_line l [] hlp.1 (by simpa using hl) (by simpa using hlp.2)]
      simp
    | cons m r =>
      simp only [List.nil_append, List.length_nil, scanLines]
      rw [joinLines_cons_of_ne_nil l (m :: r) (by simp),
        scanLinesFrom_line_newline l [] _ hlp.1 (by simpa using hlp.2)]
      simp
  | cons a pre ih =>
    have ha := hall a (by simp)
    have hrest : ∀ tk ∈ pre ++ l :: post, 10 ∉ tk ∧ tk.length < MaxScanTokenSize :=
      fun tk htk => hall tk (by simp only [List.cons_append, List.mem_cons]; exact Or.inr htk)
    rw [List.cons_append, joinLines_cons_of_ne_nil a _ (by simp)]
    simp only [scanLines, List.length_cons]
    rw [scanLinesFrom_line_newline a [] _ ha.1 (by simpa using ha.2)]
    simp only [List.get?_cons_succ]
    exact ih hrest

/-! ## The claims -/

/-- C1, on the scenario of the specification: the file has exactly one matching
entry, the loop logs its removal once, and yet all five lines are kept and
written back; the entry line is not deleted. -/
theorem scenario_matching_entry_is_written_back :
    (scanLines scenarioFile).tokens = scenarioLines ∧
    specMatchCount (lit "http://a.example/sub") scenarioLines = 1 ∧
    runLoop (lit "http://a.example/sub") LoopState.init scenarioLines =
      some ⟨false, scenarioLines, 1⟩ ∧
    observe (RemoveSubUrl (worldWith examplePath scenarioFile) examplePath
        (lit "http://a.example/sub")) =
      some (none, some (joinLines scenarioLines), 1) ∧
    lit "  - http://a.example/sub" ∈ scenarioLines := by
  decide

/-- C2, on the scenario file, every line terminated by a newline, with a target
that matches no entry: the call returns nil, and the content written back is
not the content read; the final newline is gone. -/
theorem no_match_drops_final_newline :
    (worldWith examplePath scenarioFile).open examplePath = some scenarioFile ∧
    specMatchCount (lit "http://zzz.example/sub") (scanLines scenarioFile).tokens = 0 ∧
    observe (RemoveSubUrl (worldWith examplePath scenarioFile) examplePath
        (lit "http://zzz.example/sub")) =
      some (none, some (lit
        "sub-urls:\n  - http://a.example/sub\n  # a comment\n  - http://b.example/sub\ntimeout: 30"),
        1) ∧
    lit "sub-urls:\n  - http://a.example/sub\n  # a comment\n  - http://b.example/sub\ntimeout: 30" ≠
      scenarioFile := by
  decide

/-- C3, on a file that ends in a blank line: the first call returns nil and
leaves a content that still ends in a newline, and the second call with the
same target returns nil and changes the file once more. -/
theorem second_call_changes_file :
    observe (RemoveSubUrl (worldWith examplePath (lit "sub-urls:\n\n")) examplePath
        (lit "http://a.example/sub")) =
      some (none, some (lit "sub-urls:\n"), 1) ∧
    observe (RemoveSubUrlTwice (worldWith examplePath (lit "sub-urls:\n\n")) examplePath
        (lit "http://a.example/sub")) =
      some (none, some (lit "sub-urls:"), 2) ∧
    lit "sub-urls:" ≠ lit "sub-urls:\n" := by
  decide

/-- C4, on a file that lists the target twice: the loop logs a removal for both
entries, keeps both lines, and the lines to be written still hold two entries
whose value is the target. -/
theorem duplicate_entries_are_written_back :
    specMatchCount (lit "http://a.example/sub") duplicateLines = 2 ∧
    runLoop (lit "http://a.example/sub") LoopState.init duplicateLines =
      some ⟨false, duplicateLines, 2⟩ ∧
    observe (RemoveSubUrl (worldWith examplePath (joinLines duplicateLines)) examplePath
        (lit "http://a.example/sub")) =
      some (none, some (joinLines duplicateLines), 1) ∧
    specMatchCount (lit "http://a.example/sub")
      (scanLines (joinLines duplicateLines)).tokens = 2 := by
  decide

/-- C5: when the call returns nil, the lines it wrote are the lines it read with
no line or exactly one line deleted, nothing altered, added or reordered; so
an input of N lines gives N or N-1 lines. -/
theorem RemoveSubUrl_deletes_at_most_one_line (w : World) (configPath subUrl : GoString)
    (o : Outcome) (hrun : RemoveSubUrl w configPath subUrl = some o) (hok : o.err = none) :
    ∃ data st, w.open configPath = some data ∧
      runLoop subUrl LoopState.init (scanLines data).tokens = some st ∧
      o.world.file configPath = some (joinLines st.newLines) ∧
      (st.newLines = (scanLines data).tokens ∨
        ∃ i, i < (scanLines data).tokens.length ∧
          st.newLines = (scanLines data).tokens.eraseIdx i) ∧
      (st.newLines.length = (scanLines data).tokens.length ∨
        st.newLines.length + 1 = (scanLines data).tokens.length) := by
  obtain ⟨data, hopen, _, _, _, ho⟩ := RemoveSubUrl_nil w configPath subUrl o hrun hok
  obtain ⟨st, hst, hnl⟩ := runLoop_keeps subUrl (scanLines data).tokens LoopState.init
  have hkeep : st.newLines = (scanLines data).tokens := by
    rw [hnl]; simp [LoopState.init]
  refine ⟨data, st, hopen, hst, ?_, Or.inl hkeep, Or.inl (by rw [hkeep])⟩
  rw [ho, hkeep]
  simp [World.store]

/-- C5 on the scenario file: the call returns nil and the five lines read are the
five lines written. -/
theorem RemoveSubUrl_deletes_at_most_one_line_witness :
    ∃ data st, (worldWith examplePath scenarioFile).open examplePath = some data ∧
      runLoop (lit "http://b.example/sub") LoopState.init (scanLines data).tokens = some st ∧
      ((worldWith examplePath scenarioFile).store examplePath
        (joinLines (scanLines scenarioFile).tokens)).file examplePath =
          some (joinLines st.newLines) ∧
      (st.newLines = (scanLines data).tokens ∨
        ∃ i, i < (scanLines data).tokens.length ∧
          st.newLines = (scanLines data).tokens.eraseIdx i) ∧
      (st.newLines.length = (scanLines data).tokens.length ∨
        st.newLines.length + 1 = (scanLines data).tokens.length) :=
  RemoveSubUrl_deletes_at_most_one_line (worldWith examplePath scenarioFile) examplePath
    (lit "http://b.example/sub")
    ⟨none, (worldWith examplePath scenarioFile).store examplePath
      (joinLines (scanLines scenarioFile).tokens)⟩
    (RemoveSubUrl_of_no_fault _ _ _ _ (by decide) (by decide) (by decide) (by decide))
    rfl

/-- C6, on a file whose last line is a blank line after the section has been
closed: the blank line is met outside the section and the loop keeps it, but
the content written back ends right after the line before it; read again, the
file has three lines and the blank line is not among them. -/
theorem final_blank_line_outside_section_is_lost :
    (scanLines blankAfterSectionFile).tokens =
      [lit "sub-urls:", lit "  - a", lit "timeout: 30"] ++ [[]] ∧
    runLoop (lit "http://zzz.example/sub") LoopState.init
      [lit "sub-urls:", lit "  - a", lit "timeout: 30"] =
        some ⟨false, [lit "sub-urls:", lit "  - a", lit "timeout: 30"], 0⟩ ∧
    runLoop (lit "http://zzz.example/sub") LoopState.init
      (scanLines blankAfterSectionFile).tokens =
        some ⟨false, [lit "sub-urls:", lit "  - a", lit "timeout: 30", []], 0⟩ ∧
    observe (RemoveSubUrl (worldWith examplePath blankAfterSectionFile) examplePath
        (lit "http://zzz.example/sub")) =
      some (none, some (lit "sub-urls:\n  - a\ntimeout: 30\n"), 1) ∧
    scanLines (lit "sub-urls:\n  - a\ntimeout: 30\n") =
      ⟨[lit "sub-urls:", lit "  - a", lit "timeout: 30"], false⟩ := by
  decide

/-- C7, on a file whose last line is a blank line inside the section: the loop
keeps the blank line, but the content written back ends right after the entry
before it; read again, the file has two lines and the blank line is not among
them. -/
theorem final_blank_line_in_section_is_lost :
    (scanLines blankInSectionFile).tokens = [lit "sub-urls:", lit "  - a"] ++ [[]] ∧
    isBlankLine [] = true ∧
    runLoop (lit "http://zzz.example/sub") LoopState.init [lit "sub-urls:", lit "  - a"] =
      some ⟨true, [lit "sub-urls:", lit "  - a"], 0⟩ ∧
    runLoop (lit "http://zzz.example/sub") LoopState.init
      (scanLines blankInSectionFile).tokens =
        some ⟨true, [lit "sub-urls:", lit "  - a", []], 0⟩ ∧
    observe (RemoveSubUrl (worldWith examplePath blankInSectionFile) examplePath
        (lit "http://zzz.example/sub")) =
      some (none, some (lit "sub-urls:\n  - a\n"), 1) ∧
    scanLines (lit "sub-urls:\n  - a\n") = ⟨[lit "sub-urls:", lit "  - a"], false⟩ := by
  decide

/-- C8, on the one-line file `sub-urls: []` terminated by a newline: the header
is the empty-list form and nothing follows it, the loop enters the section at
the header and keeps the header line, and yet the content written back is not
the content read; the final newline is gone. -/
theorem empty_list_header_changes_terminated_file :
    (scanLines (lit "sub-urls: []\n")).tokens = [] ++ lit "sub-urls: []" :: [] ∧
    TrimSpace (lit "sub-urls: []") = lit "sub-urls: []" ∧
    noIndentedLineInSection [] = true ∧
    runLoop (lit "http://a.example/sub") LoopState.init [lit "sub-urls: []"] =
      some ⟨true, [lit "sub-urls: []"], 0⟩ ∧
    observe (RemoveSubUrl (worldWith examplePath (lit "sub-urls: []\n")) examplePath
        (lit "http://a.example/sub")) =
      some (none, some (lit "sub-urls: []"), 1) ∧
    lit "sub-urls: []" ≠ lit "sub-urls: []\n" := by
  decide

/-- C9: `RemoveSubUrlFromConfig` returns the path-not-set error exactly when
`GlobalConfigPath` is empty, and then leaves the file system as it was (no
file opened, read or written); for a non-empty `GlobalConfigPath` its result
and effect are those of `RemoveSubUrl(GlobalConfigPath, subUrl)`. -/
theorem RemoveSubUrlFromConfig_contract (w : World) (GlobalConfigPath subUrl : GoString) :
    ((∃ o, RemoveSubUrlFromConfig w GlobalConfigPath subUrl = some o ∧
        o.err = some GoError.pathNotSet) ↔ GlobalConfigPath = []) ∧
    (GlobalConfigPath = [] →
      RemoveSubUrlFromConfig w GlobalConfigPath subUrl = some ⟨some GoError.pathNotSet, w⟩) ∧
    (GlobalConfigPath ≠ [] →
      RemoveSubUrlFromConfig w GlobalConfigPath subUrl =
        RemoveSubUrl w GlobalConfigPath subUrl) := by
  refine ⟨⟨?_, ?_⟩, ?_, ?_⟩
  · rintro ⟨o, ho, herr⟩
    by_contra hne
    unfold RemoveSubUrlFromConfig at ho
    rw [if_neg hne] at ho
    exact RemoveSubUrl_err_ne_pathNotSet w GlobalConfigPath subUrl o ho herr
  · intro he
    exact ⟨⟨some GoError.pathNotSet, w⟩, by unfold RemoveSubUrlFromConfig; rw [if_pos he], rfl⟩
  · intro he
    unfold RemoveSubUrlFromConfig
    rw [if_pos he]
  · intro hne
    unfold RemoveSubUrlFromConfig
    rw [if_neg hne]

/-- C9 at an unset path and at the example path: the first call returns the
path-not-set error and leaves the file system alone, the second is the call of
`RemoveSubUrl` on the example path. -/
theorem RemoveSubUrlFromConfig_contract_witness :
    observe (RemoveSubUrlFromConfig (worldWith examplePath scenarioFile) []
        (lit "http://a.example/sub")) =
      some (some GoError.pathNotSet, some scenarioFile, 0) ∧
    RemoveSubUrlFromConfig (worldWith examplePath scenarioFile) examplePath
        (lit "http://a.example/sub") =
      RemoveSubUrl (worldWith examplePath scenarioFile) examplePath
        (lit "http://a.example/sub") :=
  ⟨by
    rw [(RemoveSubUrlFromConfig_contract (worldWith examplePath scenarioFile) []
      (lit "http://a.example/sub")).2.1 rfl]
    decide,
   (RemoveSubUrlFromConfig_contract (worldWith examplePath scenarioFile) examplePath
      (lit "http://a.example/sub")).2.2 (by decide)⟩

/-- C10: when `os.Open` fails, or the scan ends with an error, `RemoveSubUrl`
returns an error and leaves the file system exactly as it was: nothing is
written, and no `os.WriteFile` call is made. -/
theorem RemoveSubUrl_read_failure_writes_nothing (w : World) (configPath subUrl : GoString)
    (h : w.open configPath = none ∨
      ∃ data, w.open configPath = some data ∧ (w.scan configPath data).failed = true) :
    ∃ e, RemoveSubUrl w configPath subUrl = some ⟨some e, w⟩ ∧
      (e = GoError.openFailed ∨ e = GoError.readFailed) := by
  rw [RemoveSubUrl_eq]
  rcases h with h | ⟨data, hopen, hf⟩
  · rw [h]
    exact ⟨GoError.openFailed, rfl, Or.inl rfl⟩
  · rw [hopen]
    simp only [hf, if_true]
    exact ⟨GoError.readFailed, rfl, Or.inr rfl⟩

/-- C10 on a file system in which reading the example file fails after ten
bytes: the call returns an error and the file system is as before. -/
theorem RemoveSubUrl_read_failure_writes_nothing_witness :
    ({ worldWith examplePath scenarioFile with readErr := fun _ => some 10 } : World).open
      examplePath = some scenarioFile ∧
    ∃ e, RemoveSubUrl { worldWith examplePath scenarioFile with readErr := fun _ => some 10 }
        examplePath (lit "http://a.example/sub") =
          some ⟨some e, { worldWith examplePath scenarioFile with
            readErr := fun _ => some 10 }⟩ ∧
      (e = GoError.openFailed ∨ e = GoError.readFailed) :=
  ⟨by decide,
    RemoveSubUrl_read_failure_writes_nothing
      { worldWith examplePath scenarioFile with readErr := fun _ => some 10 }
      examplePath (lit "http://a.example/sub")
      (Or.inr ⟨scenarioFile, by decide, by decide⟩)⟩

/-- C11: `RemoveSubUrl` returns in every case, and it returns an error exactly
when `os.Open` fails, the scan ends with an error, or `os.WriteFile` fails; each
of these gives its own error, and when all three steps succeed the result is
nil for every target, whether the target matches an entry or not. -/
theorem RemoveSubUrl_error_iff (w : World) (configPath subUrl : GoString) :
    ∃ o, RemoveSubUrl w configPath subUrl = some o ∧
      (o.err ≠ none ↔
        (w.open configPath = none ∨
          (∃ data, w.open configPath = some data ∧
            (w.scan configPath data).failed = true) ∨
          (∃ data, w.open configPath = some data ∧
            (w.scan configPath data).failed = false ∧ w.writeErr configPath ≠ none))) ∧
      (o.err = some GoError.openFailed ↔ w.open configPath = none) ∧
      (o.err = some GoError.readFailed ↔
        ∃ data, w.open configPath = some data ∧ (w.scan configPath data).failed = true) ∧
      (o.err = some GoError.writeFailed ↔
        ∃ data, w.open configPath = some data ∧
          (w.scan configPath data).failed = false ∧ w.writeErr configPath ≠ none) ∧
      (o.err = none ↔
        ∃ data, w.open configPath = some data ∧
          (w.scan configPath data).failed = false ∧ w.writeErr configPath = none) := by
  refine ⟨_, RemoveSubUrl_eq w configPath subUrl, ?_⟩
  cases hopen : w.open configPath with
  | none => simp
  | some data =>
    cases hf : (w.scan configPath data).failed with
    | true => simp [hf]
    | false =>
      cases hw : w.writeErr configPath with
      | none => simp [hf, World.writeFile, hw]
      | some left => simp [hf, World.writeFile, hw]

/-- C11 on the scenario file in a file system without faults, with a target
that matches no entry: the call returns nil. -/
theorem RemoveSubUrl_error_iff_witness :
    observe (RemoveSubUrl (worldWith examplePath scenarioFile) examplePath
      (lit "http://zzz.example/sub")) = some (none, some (chompNL scenarioFile), 1) ∧
    ∃ o, RemoveSubUrl (worldWith examplePath scenarioFile) examplePath
        (lit "http://zzz.example/sub") = some o ∧ o.err = none := by
  refine ⟨by decide, ?_⟩
  obtain ⟨o, ho, _, _, _, _, hnil⟩ := RemoveSubUrl_error_iff
    (worldWith examplePath scenarioFile) examplePath (lit "http://zzz.example/sub")
  exact ⟨o, ho, hnil.2 ⟨scenarioFile, by decide, by decide, by decide⟩⟩

/-- C12: when a call returns nil, a line it read inside the section that starts
with a space and whose first non-space character is not `-` was appended
unchanged by its step, which left the section open, and stands byte for byte
in the content written: after the lines read before it, each followed by a
newline, and before the lines read after it, each preceded by one. Read again,
the written file has that line at the same place, as far as the line does not
end in a carriage return. This holds for every target. -/
theorem indented_non_entry_is_kept (w : World) (configPath subUrl data : GoString)
    (o : Outcome) (pre : List GoString) (l : GoString) (post : List GoString)
    (st : LoopState) (hopen : w.open configPath = some data)
    (hrun : RemoveSubUrl w configPath subUrl = some o) (hok : o.err = none)
    (hlines : (scanLines data).tokens = pre ++ l :: post)
    (_hpre : runLoop subUrl LoopState.init pre = some st) (hin : st.inSubUrls = true)
    (hsp : l.head? = some 32) (_hne : (l.dropWhile (· = 32)).head? ≠ some 45) :
    (∃ n, loopBody subUrl st l = some ⟨true, st.newLines ++ [l], st.infos + n⟩) ∧
    o.world.file configPath =
      some ((pre.map (· ++ [10])).flatten ++ l ++ (post.map (10 :: ·)).flatten) ∧
    (l.getLast? ≠ some 13 →
      (scanLines ((pre.map (· ++ [10])).flatten ++ l ++
        (post.map (10 :: ·)).flatten)).tokens.get? pre.length = some l) := by
  obtain ⟨data2, hopen2, _, hsc, _, ho⟩ := RemoveSubUrl_nil w configPath subUrl o hrun hok
  rw [hopen] at hopen2
  obtain rfl : data = data2 := by simpa using hopen2
  obtain ⟨n, _, hb⟩ := loopBody_indented subUrl st l hin hsp
  have hne : l ≠ [] := by
    intro h; subst h; simp at hsp
  have hall : ∀ tk ∈ pre ++ l :: post, 10 ∉ tk ∧ tk.length < MaxScanTokenSize := by
    rw [← hlines]
    exact scanLinesFrom_tokens_short data [] hsc (by simp)
  refine ⟨⟨n, hb⟩, ?_, ?_⟩
  · rw [ho]
    simp only [World.store, if_true]
    rw [hlines, joinLines_split]
  · intro hcr
    rw [← joinLines_split, scanLines_joinLines_get pre l post hall hne]
    unfold dropCR
    rw [if_neg hcr]

/-- C12 on a nested key whose value holds `-` followed by the target: the
comparison after that `-` succeeds and is logged, the call returns nil, and
the line stands unchanged in the content written. -/
theorem indented_non_entry_is_kept_witness :
    (nestedKeyLine.dropWhile (· = 32)).head? ≠ some 45 ∧
    loopBody (lit "http://a.example/sub") ⟨true, [lit "sub-urls:"], 0⟩ nestedKeyLine =
      some ⟨true, [lit "sub-urls:", nestedKeyLine], 1⟩ ∧
    ∃ o, RemoveSubUrl (worldWith examplePath nestedKeyFile) examplePath
        (lit "http://a.example/sub") = some o ∧ o.err = none ∧
      o.world.file examplePath =
        some (([lit "sub-urls:"].map (· ++ [10])).flatten ++ nestedKeyLine ++
          ([lit "timeout: 30"].map (10 :: ·)).flatten) :=
  ⟨by decide, by decide,
    ⟨none, (worldWith examplePath nestedKeyFile).store examplePath
      (joinLines (scanLines nestedKeyFile).tokens)⟩,
    RemoveSubUrl_of_no_fault (worldWith examplePath nestedKeyFile) examplePath
      (lit "http://a.example/sub") nestedKeyFile
      (by decide) (by decide) (by decide) (by decide),
    rfl,
    (indented_non_entry_is_kept (worldWith examplePath nestedKeyFile) examplePath
      (lit "http://a.example/sub") nestedKeyFile
      ⟨none, (worldWith examplePath nestedKeyFile).store examplePath
        (joinLines (scanLines nestedKeyFile).tokens)⟩
      [lit "sub-urls:"] nestedKeyLine [lit "timeout: 30"] ⟨true, [lit "sub-urls:"], 0⟩
      (by decide)
      (RemoveSubUrl_of_no_fault (worldWith examplePath nestedKeyFile) examplePath
        (lit "http://a.example/sub") nestedKeyFile
        (by decide) (by decide) (by decide) (by decide))
      rfl (by decide) (by decide) rfl (by decide) (by decide)).2.1⟩

/-- C13: for every sequence of lines and every target the loop returns with
`newLines` equal to the whole input sequence; on a match the `continue` goes on
with the remaining runes of the same line, and the line is appended by its
step like any other. -/
theorem loop_keeps_every_line (subUrl : GoString) (lines : List GoString) :
    (∃ st, runLoop subUrl LoopState.init lines = some st ∧ st.newLines = lines) ∧
    (∀ (st : LoopState) (line : GoString),
      ∃ st1, loopBody subUrl st line = some st1 ∧ st1.newLines = st.newLines ++ [line]) ∧
    (∀ (line : GoString) (i : Nat) (rest : List (Nat × Nat)),
      TrimSpace (line.drop (i + 1)) = subUrl → i + 1 ≤ line.length →
        scanRunes line subUrl ((i, 45) :: rest) =
          (scanRunes line subUrl rest).map (· + 1)) := by
  refine ⟨?_, fun st line => loopBody_keeps subUrl st line, ?_⟩
  · obtain ⟨st, hst, hnl⟩ := runLoop_keeps subUrl lines LoopState.init
    exact ⟨st, hst, by rw [hnl]; simp [LoopState.init]⟩
  · intro line i rest hm hi
    have hs : sliceFrom line (i + 1) = some (line.drop (i + 1)) := by
      unfold sliceFrom
      rw [if_pos hi]
    conv_lhs => unfold scanRunes
    simp [hs, hm]

/-- C13 on the scenario with the target of its first entry: all five lines are
kept. -/
theorem loop_keeps_every_line_witness :
    ∃ st, runLoop (lit "http://a.example/sub") LoopState.init scenarioLines = some st ∧
      st.newLines = scenarioLines :=
  (loop_keeps_every_line (lit "http://a.example/sub") scenarioLines).1

/-- C14: for a content without carriage returns, a call that returns nil writes
the content read with one final newline removed when it ends in one, and the
content unchanged otherwise; so `n` calls in a row on a file that ends in `k`
newlines, `n` at most `k`, return and leave it with `k - n` of them. -/
theorem RemoveSubUrl_strips_one_final_newline (w : World)
    (configPath subUrl data : GoString) (o : Outcome)
    (hopen : w.open configPath = some data)
    (hrun : RemoveSubUrl w configPath subUrl = some o) (hok : o.err = none)
    (hcr : 13 ∉ data) :
    (∀ body, data = body ++ [10] → o.world.file configPath = some body) ∧
    (data.getLast? ≠ some 10 → o.world.file configPath = some data) ∧
    (∀ n, ∃ w1, RemoveSubUrlRepeated configPath subUrl n w = some w1 ∧
      w1.file configPath = some (Nat.iterate chompNL n data)) ∧
    (∀ base k n, data = base ++ List.replicate k 10 → n ≤ k →
      ∃ w1, RemoveSubUrlRepeated configPath subUrl n w = some w1 ∧
        w1.file configPath = some (base ++ List.replicate (k - n) 10)) := by
  obtain ⟨data2, hopen2, hre, hsc, hwr, ho⟩ := RemoveSubUrl_nil w configPath subUrl o hrun hok
  rw [hopen] at hopen2
  obtain rfl : data = data2 := by simpa using hopen2
  have hfile : o.world.file configPath = some (chompNL data) := by
    rw [ho]
    simp only [World.store, if_true]
    rw [joinLines_scanLines data hsc hcr]
  have hrep := fun n =>
    RemoveSubUrlRepeated_file configPath subUrl n w data hopen hre hwr hsc hcr
  refine ⟨?_, ?_, hrep, ?_⟩
  · intro body hb
    rw [hfile, hb, chompNL_append_newline]
  · intro hlast
    rw [hfile, chompNL_of_getLast_ne data hlast]
  · intro base k n hd hn
    obtain ⟨w1, h1, h2⟩ := hrep n
    refine ⟨w1, h1, ?_⟩
    rw [h2, hd, chompNL_iterate_newlines base n k hn]

/-- C14 on the scenario file, which ends in one newline: the call returns nil
and writes the five lines without the final newline. -/
theorem RemoveSubUrl_strips_one_final_newline_witness :
    scenarioFile = joinLines scenarioLines ++ [10] ∧
    ∃ o, RemoveSubUrl (worldWith examplePath scenarioFile) examplePath
        (lit "http://zzz.example/sub") = some o ∧ o.err = none ∧
      o.world.file examplePath = some (joinLines scenarioLines) :=
  ⟨by decide,
    ⟨none, (worldWith examplePath scenarioFile).store examplePath
      (joinLines (scanLines scenarioFile).tokens)⟩,
    RemoveSubUrl_of_no_fault (worldWith examplePath scenarioFile) examplePath
      (lit "http://zzz.example/sub") scenarioFile
      (by decide) (by decide) (by decide) (by decide),
    rfl,
    (RemoveSubUrl_strips_one_final_newline (worldWith examplePath scenarioFile)
      examplePath (lit "http://zzz.example/sub") scenarioFile
      ⟨none, (worldWith examplePath scenarioFile).store examplePath
        (joinLines (scanLines scenarioFile).tokens)⟩
      (by decide)
      (RemoveSubUrl_of_no_fault (worldWith examplePath scenarioFile) examplePath
        (lit "http://zzz.example/sub") scenarioFile
        (by decide) (by decide) (by decide) (by decide))
      rfl (by decide)).1 (joinLines scenarioLines) (by decide)⟩

/-- C15: inside the section, a line that is not empty and starts with neither a
space nor `#` closes the section and is kept unchanged; it is not taken as a
header by the same step, so a second top-level `sub-urls:` line met inside the
section closes the section instead of opening it again. -/
theorem loopBody_leaves_section (subUrl : GoString) (st : LoopState) (c : Nat)
    (r : GoString) (hin : st.inSubUrls = true) (hsp : c ≠ 32) (hhash : c ≠ 35) :
    loopBody subUrl st (c :: r) = some ⟨false, st.newLines ++ [c :: r], st.infos⟩ ∧
    loopBody subUrl st (lit "sub-urls:") =
      some ⟨false, st.newLines ++ [lit "sub-urls:"], st.infos⟩ := by
  have key : ∀ (c : Nat) (r : GoString), c ≠ 32 → c ≠ 35 →
      loopBody subUrl st (c :: r) = some ⟨false, st.newLines ++ [c :: r], st.infos⟩ := by
    intro c r hsp hhash
    unfold loopBody
    simp only
    rw [if_neg (by simp [hin]), if_pos hin, if_neg (by simp [hsp]),
      if_pos (by simp [hsp, hhash])]
    rfl
  exact ⟨key c r hsp hhash, key 115 _ (by decide) (by decide)⟩

/-- C15 on the top-level key that follows the section in the scenario, and on
a second header line. -/
theorem loopBody_leaves_section_witness :
    loopBody (lit "http://a.example/sub") ⟨true, [lit "sub-urls:"], 0⟩ (lit "timeout: 30") =
      some ⟨false, [lit "sub-urls:"] ++ [lit "timeout: 30"], 0⟩ ∧
    loopBody (lit "http://a.example/sub") ⟨true, [lit "sub-urls:"], 0⟩ (lit "sub-urls:") =
      some ⟨false, [lit "sub-urls:"] ++ [lit "sub-urls:"], 0⟩ :=
  loopBody_leaves_section (lit "http://a.example/sub") ⟨true, [lit "sub-urls:"], 0⟩
    116 (lit "imeout: 30") rfl (by decide) (by decide)

/-- C16: inside the section, a line that is empty, or starts with `#`, or starts
with a space is kept and leaves the section open; a space-indented line that
follows is therefore still scanned for an entry of the section. -/
theorem loopBody_stays_in_section (subUrl : GoString) (st : LoopState) (line : GoString)
    (hin : st.inSubUrls = true)
    (hl : line = [] ∨ line.head? = some 35 ∨ line.head? = some 32) :
    ∃ st1, loopBody subUrl st line = some st1 ∧ st1.inSubUrls = true ∧
      st1.newLines = st.newLines ++ [line] ∧
      ∀ next : GoString, next.head? = some 32 →
        ∃ n, scanRunes next subUrl (rangeString next) = some n ∧
          loopBody subUrl st1 next =
            some ⟨true, st1.newLines ++ [next], st1.infos + n⟩ := by
  have hstep : ∃ st1, loopBody subUrl st line = some st1 ∧ st1.inSubUrls = true ∧
      st1.newLines = st.newLines ++ [line] := by
    rcases hl with hl | hl | hl
    · exact ⟨_, loopBody_empty_or_hash subUrl st line hin (Or.inl hl), rfl, rfl⟩
    · exact ⟨_, loopBody_empty_or_hash subUrl st line hin (Or.inr hl), rfl, rfl⟩
    · obtain ⟨n, _, hb⟩ := loopBody_indented subUrl st line hin hl
      exact ⟨_, hb, rfl, rfl⟩
  obtain ⟨st1, h1, h2, h3⟩ := hstep
  exact ⟨st1, h1, h2, h3, fun next hn => loopBody_indented subUrl st1 next h2 hn⟩

/-- C16 on the comment line of the scenario: the section stays open and the
entry after the comment is still compared with the target. -/
theorem loopBody_stays_in_section_witness :
    loopBody (lit "http://b.example/sub") ⟨true, [lit "sub-urls:"], 0⟩ (lit "  # a comment") =
      some ⟨true, [lit "sub-urls:", lit "  # a comment"], 0⟩ ∧
    loopBody (lit "http://b.example/sub") ⟨true, [lit "sub-urls:", lit "  # a comment"], 0⟩
      (lit "  - http://b.example/sub") =
      some ⟨true, [lit "sub-urls:", lit "  # a comment", lit "  - http://b.example/sub"], 1⟩ ∧
    ∃ st1, loopBody (lit "http://b.example/sub") ⟨true, [lit "sub-urls:"], 0⟩
        (lit "  # a comment") = some st1 ∧ st1.inSubUrls = true ∧
      st1.newLines = [lit "sub-urls:"] ++ [lit "  # a comment"] ∧
      ∀ next : GoString, next.head? = some 32 →
        ∃ n, scanRunes next (lit "http://b.example/sub") (rangeString next) = some n ∧
          loopBody (lit "http://b.example/sub") st1 next =
            some ⟨true, st1.newLines ++ [next], st1.infos + n⟩ :=
  ⟨by decide, by decide,
    loopBody_stays_in_section (lit "http://b.example/sub") ⟨true, [lit "sub-urls:"], 0⟩
      (lit "  # a comment") rfl (Or.inr (Or.inr (by decide)))⟩

/-- C17, on the line `  - a-b` inside the section with target `a-b`: the text
after the first `-` (offset 2) equals the target and the removal is logged,
and then the scan goes on and compares the text after the `-` inside the value
(offset 5) as well. -/
theorem scan_goes_on_after_match :
    rangeString (lit "  - a-b") = [(0, 32), (1, 32), (2, 45), (3, 32), (4, 97), (5, 45), (6, 98)] ∧
    comparedAt (lit "  - a-b") (lit "a-b") (rangeString (lit "  - a-b")) = [2, 5] ∧
    scanRunes (lit "  - a-b") (lit "a-b") (rangeString (lit "  - a-b")) = some 1 ∧
    loopBody (lit "a-b") ⟨true, [lit "sub-urls:"], 0⟩ (lit "  - a-b") =
      some ⟨true, [lit "sub-urls:", lit "  - a-b"], 1⟩ ∧
    comparedAt (lit "  - a-b") (lit "zzz") (rangeString (lit "  - a-b")) = [2] := by
  decide

/-- C18: for every line, every offset the range loop visits lies inside the
line, so `line[i+1:]` is in bounds at every `'-'` found, and a rune found to
be `'-'` sits on a byte `'-'`; the step returns for every state and target. -/
theorem loopBody_total (line : GoString) :
    (∀ p ∈ rangeString line, p.1 + 1 ≤ line.length ∧
      sliceFrom line (p.1 + 1) = some (line.drop (p.1 + 1)) ∧
      (p.2 = 45 → line.get? p.1 = some 45)) ∧
    (∀ (subUrl : GoString), ∃ n, scanRunes line subUrl (rangeString line) = some n) ∧
    (∀ (subUrl : GoString) (st : LoopState), ∃ st1, loopBody subUrl st line = some st1) := by
  refine ⟨?_, fun subUrl => scanLine_isSome line subUrl, ?_⟩
  · intro p hp
    have hle : p.1 + 1 ≤ line.length := rangeString_index_lt line p hp
    refine ⟨hle, ?_, fun hd => rangeString_dash_byte line p hp hd⟩
    unfold sliceFrom
    rw [if_pos hle]
  · intro subUrl st
    obtain ⟨st1, h1, _⟩ := loopBody_keeps subUrl st line
    exact ⟨st1, h1⟩

/-- C18 on a line with a multi-byte rune and with bytes that are no valid
UTF-8: the `-` between the invalid bytes is found at offset 8 of 10, and the
step returns. -/
theorem loopBody_total_witness :
    rangeString brokenUtf8Line =
      [(0, 32), (1, 32), (2, 45), (3, 32), (4, 37197), (7, 65533), (8, 45), (9, 65533)] ∧
    brokenUtf8Line.length = 10 ∧
    ∃ st1, loopBody (lit "x") ⟨true, [], 0⟩ brokenUtf8Line = some st1 :=
  ⟨by decide, by decide, (loopBody_total brokenUtf8Line).2.2 (lit "x") ⟨true, [], 0⟩⟩

end SubsCheck
